import Mathlib

/-!
Verification development for the concode repository (Go).

The Go source is shallowly embedded: each Go function of `concode.go` and
`fs.go` that the claims touch is translated into an executable Lean
definition.  Mutable shared state (the registry of `*SourceCodeFile`
pointers) becomes explicit state passing over an association list kept in
the iteration order of the Go map; the recursion of `fillPathForFile` and
`countParentDirsFromImports` is made total with a fuel parameter (the Go
recursion depth is bounded by the callstack guard, so any large enough
fuel reproduces the Go behaviour, and fuel exhaustion is reported as a
distinct error that never occurs on the concrete inputs used below).
Go runtime panics (index out of range, the explicit calls to panic) are
modelled as error values of type `GoErr`.
-/

/-- Character set that Go `strings.TrimSpace` and `strings.Fields` treat as
space, restricted to the code points that occur in source text handled by
this program (ASCII whitespace plus NEL and NBSP). -/
def isGoSpace (c : Char) : Bool :=
  c = ' ' || c = '\t' || c = '\n' || c = '\x0b' || c = '\x0c' || c = '\r' ||
  c = '\x85' || c = '\xa0'

/-- Drop leading characters satisfying `p` from a character list. -/
def dropLeading (p : Char → Bool) : List Char → List Char
  | [] => []
  | c :: cs => if p c then dropLeading p cs else c :: cs

/-- Go `strings.TrimSpace` over character lists: strip spaces on both ends. -/
def trimSpaceChars (cs : List Char) : List Char :=
  dropLeading isGoSpace ((dropLeading isGoSpace cs.reverse).reverse)

/-- Go `strings.TrimSpace`. -/
def goTrimSpace (s : String) : String :=
  (trimSpaceChars s.data).asString

/-- Go `strings.Trim(s, cutset)` over character lists: strip characters of
`cutset` from both ends. -/
def trimCutChars (cutset : List Char) (cs : List Char) : List Char :=
  dropLeading (cutset.contains ·) ((dropLeading (cutset.contains ·) cs.reverse).reverse)

/-- Go `strings.Trim(s, cutset)`. -/
def goTrimCut (cutset : List Char) (s : String) : String :=
  (trimCutChars cutset s.data).asString

/-- Split a character list at every occurrence of the character `sep`;
like Go `strings.Split` with a one-character separator, the result is never
empty and empty fields are kept. -/
def splitCharsOn (sep : Char) : List Char → List (List Char)
  | [] => [[]]
  | c :: cs =>
    let rest := splitCharsOn sep cs
    if c = sep then [] :: rest
    else
      match rest with
      | [] => [[c]]
      | r :: rs => (c :: r) :: rs

/-- Go `strings.Split(s, sep)` for a one-character separator. -/
def goSplitOn (sep : Char) (s : String) : List String :=
  (splitCharsOn sep s.data).map List.asString

/-- Go `strings.Fields` over character lists: maximal runs of non-space
characters. -/
def fieldsChars : List Char → List (List Char)
  | [] => []
  | c :: cs =>
    if isGoSpace c then fieldsChars cs
    else
      match fieldsChars cs with
      | [] => [[c]]
      | r :: rs =>
        match cs with
        | [] => [[c]]
        | c2 :: _ => if isGoSpace c2 then [c] :: (r :: rs) else (c :: r) :: rs

/-- Go `strings.Fields`. -/
def goFields (s : String) : List String :=
  (fieldsChars s.data).map List.asString

/-- Go `strings.HasPrefix`. -/
def goStartsWith (s pre : String) : Bool :=
  pre.data.isPrefixOf s.data

/-- Go `strings.HasSuffix`. -/
def goEndsWith (s suf : String) : Bool :=
  suf.data.reverse.isPrefixOf s.data.reverse

/-- Join character lists with a separator, as Go `strings.Join`. -/
def joinWithChars (sep : List Char) : List (List Char) → List Char
  | [] => []
  | [x] => x
  | x :: xs => x ++ sep ++ joinWithChars sep xs

/-- Go `strings.Join`. -/
def goJoin (sep : String) (l : List String) : String :=
  (joinWithChars sep.data (l.map (·.data))).asString

/-- First index at which `pat` occurs as a contiguous sublist of `cs`
(`none` when it never occurs), as used by Go `strings.Index`. -/
def findSubIdx (pat : List Char) : List Char → Option Nat
  | [] => if pat = [] then some 0 else none
  | c :: cs =>
    if pat.isPrefixOf (c :: cs) then some 0
    else (findSubIdx pat cs).map (· + 1)

/-- Go `strings.Replace(s, old, new, 1)`: replace the first occurrence of
`old` in `s` by `new`; with an empty `old`, Go inserts `new` before the
first character. -/
def goReplaceFirst (s old new : String) : String :=
  if old.data = [] then new ++ s
  else
    match findSubIdx old.data s.data with
    | none => s
    | some i => ((s.data.take i) ++ new.data ++ (s.data.drop (i + old.data.length))).asString

/-- Go `path.Clean` core loop: process the slash-separated parts of a path,
keeping an output stack; `rooted` records a leading slash. -/
def cleanParts (rooted : Bool) : List String → List String → List String
  | [], acc => acc.reverse
  | p :: rest, acc =>
    if p = "" || p = "." then cleanParts rooted rest acc
    else if p = ".." then
      match acc with
      | [] => if rooted then cleanParts rooted rest [] else cleanParts rooted rest [".."]
      | q :: acc2 =>
        if q = ".." then cleanParts rooted rest (p :: q :: acc2)
        else cleanParts rooted rest acc2
    else cleanParts rooted rest (p :: acc)

/-- Go `path.Clean`: lexical simplification of a slash-separated path. -/
def goPathClean (s : String) : String :=
  let rooted := goStartsWith s "/"
  let parts := goSplitOn '/' s
  let kept := cleanParts rooted parts []
  let body := goJoin "/" kept
  let out := (if rooted then "/" else "") ++ body
  if out = "" then "." else out

/-- Go `path.Join`: join the non-empty elements with slashes, then clean;
all elements empty yields the empty string. -/
def goPathJoin (elems : List String) : String :=
  let nonEmpty := elems.filter (· ≠ "")
  if nonEmpty = [] then ""
  else goPathClean (goJoin "/" nonEmpty)

/-- The `rootDirName` constant of concode.go: the ROOT sentinel. -/
def rootDirName : String := "<ROOT>"

/-- The `SourceCodeFile` struct of concode.go. -/
structure SourceCodeFile where
  Name : String
  RawContent : String
  Dependencies : List String
  PathFields : List String
  Imports : List String
deriving DecidableEq, Repr

/-- The cutset of single-quote, double-quote and semicolon characters that
`fillDependenciesAndImports` and `addBasePathToImports` strip from the
raw import token. -/
def quoteCutset : List Char := ['\'', '\"', ';']

/-- Recognition test of `fillDependenciesAndImports`: the line, trimmed,
must begin with the import keyword followed by a space. -/
def isImportLine (line : String) : Bool :=
  goStartsWith (goTrimSpace line) "import "

/-- Literal import path extracted from one recognized import line: the last
whitespace-separated field with quotes and semicolons stripped.  Under the
`isImportLine` guard the field list is provably non-empty, so the default
of `getLastD` is never used. -/
def importLiteralOfLine (line : String) : String :=
  goTrimCut quoteCutset ((goFields line).getLastD "")

/-- Target file name of an import literal: the segment after the last
slash, or the whole literal when it has no slash. -/
def importTargetOfLiteral (lit : String) : String :=
  (goSplitOn '/' lit).getLastD ""

/-- One (literal, target) pair as appended to `file.Imports` and
`file.Dependencies` by `fillDependenciesAndImports`. -/
def mkImportRecord (line : String) : String × String :=
  let lit := importLiteralOfLine line
  (lit, importTargetOfLiteral lit)

/-- The loop of `fillDependenciesAndImports` of concode.go: scan the raw
content line by line and collect a (literal, target) pair from every
recognized import line, in authoring order.  The Go function has no error
return: it can never fail. -/
def extractImports (raw : String) : List (String × String) :=
  (goSplitOn '\n' raw).filterMap
    (fun line => if isImportLine line then some (mkImportRecord line) else none)

/-- Go `fillDependenciesAndImports`: fill the `Imports` and `Dependencies`
fields of a file from its raw content. -/
def fillDependenciesAndImports (file : SourceCodeFile) : SourceCodeFile :=
  let recs := extractImports file.RawContent
  { file with Imports := recs.map (·.1), Dependencies := recs.map (·.2) }

/-- Errors and runtime panics of the resolution phase.  Go distinguishes
returned errors from panics; both abort the run, and both are modelled as
values of this type.  `outOfFuel` is an artifact of the embedding and never
occurs on the concrete inputs below. -/
inductive GoErr where
  | outOfFuel : GoErr
  | unexpectedFile : GoErr
  | indexOutOfRange : GoErr
  | dependentNotFound : String → String → GoErr
deriving DecidableEq, Repr

deriving instance DecidableEq for Except

/-- The registry `map[FileName]*SourceCodeFile`, with the iteration order
of the Go map made explicit as the list order.  File names are unique. -/
abbrev RegState := List SourceCodeFile

/-- The dependents index `map[FileName][]*SourceCodeFile`, holding file
names instead of pointers; records are looked up in the current state. -/
abbrev Deps := List (String × List String)

/-- Registry lookup `files[name]`. -/
def lookupFile (s : RegState) (n : String) : Option SourceCodeFile :=
  s.find? (fun f => f.Name == n)

/-- Write through the pointer: replace the `PathFields` of the record named
`n`. -/
def setPathFields (s : RegState) (n : String) (p : List String) : RegState :=
  s.map (fun f => if f.Name = n then { f with PathFields := p } else f)

/-- Read through the pointer: the `PathFields` of the record named `n`.
Every use below is for a name present in the state, so the default is
never hit. -/
def getPathFields (s : RegState) (n : String) : List String :=
  ((lookupFile s n).map (·.PathFields)).getD []

/-- Append one dependent name to the entry of `d` in the index. -/
def depAppend (m : Deps) (d fn : String) : Deps :=
  if (m.lookup d).isSome then
    m.map (fun e => if e.1 = d then (e.1, e.2 ++ [fn]) else e)
  else m ++ [(d, [fn])]

/-- The dependents-index construction at the top of `fillPaths`: for every
file, for every dependency, append the file to the list keyed by that
dependency, iterating the registry in list order. -/
def buildDependents (s : RegState) : Deps :=
  s.foldl (fun m f => f.Dependencies.foldl (fun m2 d => depAppend m2 d f.Name) m) []

/-- Lookup `dependents[name]`, the empty list when absent (Go map zero
value). -/
def depsGet (m : Deps) (n : String) : List String :=
  (m.lookup n).getD []

/-- Count of leading `..` segments, as in the loops
`for i := 0; i < len(fields) && fields[i] == ".."; i++`. -/
def leadingDotDots (l : List String) : Nat :=
  (l.takeWhile (· == "..")).length

/-- Count of all `..` segments, as in the inner loop of
`countParentDirsFromImports`. -/
def countDotDots (l : List String) : Nat :=
  l.countP (· == "..")

/-- Index of the last occurrence of `x` in `l`: the `importIndex` search of
`fillPathForFile` iterates the whole list without breaking, so a later
match overwrites an earlier one. -/
def lastIdxOf (l : List String) (x : String) : Option Nat :=
  l.enum.foldl (fun acc e => if e.2 = x then some e.1 else acc) none

/-- Candidate path computed by `fillPathForFile` from one dependent edge
(concode.go lines 233 to 258): split the literal, drop the file-name
segment, then navigate from the path of the dependent.  `ok none` models
the `continue` taken when the leading `..` count reaches the length of the
path of the dependent; `error indexOutOfRange` models the Go panic on
reading index 0 of the empty slice left by a slashless literal. -/
def newPathCandidate (depPath : List String) (importPath : String) :
    Except GoErr (Option (List String)) :=
  let ipf := (goSplitOn '/' importPath).dropLast
  match ipf with
  | [] => .error .indexOutOfRange
  | h0 :: _ =>
    if h0 = ".." then
      let pc := leadingDotDots ipf
      if pc ≥ depPath.length then .ok none
      else .ok (some (depPath.take (depPath.length - pc) ++ ipf.drop pc))
    else if h0 = "." then .ok (some (depPath ++ ipf.drop 1))
    else .ok (some (rootDirName :: ipf))

mutual

/-- Go `fillPathForFile`: callstack guard, rooted guard, then either the
sibling pass (no dependents) or the dependent pass.  The callstack is the
set of in-flight names; marking before recursion and the deferred unmark
become passing `name :: cs` to inner calls.  Fuel only bounds recursion
depth; the Go depth is bounded by the callstack guard, so ample fuel is
exact. -/
def fillPathForFile : Nat → Deps → List String → String → RegState → Except GoErr RegState
  | 0, _, _, _, _ => .error .outOfFuel
  | Nat.succ n, deps, cs, name, s =>
    if cs.contains name then .ok s
    else
      match lookupFile s name with
      | none => .error .unexpectedFile
      | some file =>
        if file.PathFields.head? = some rootDirName then .ok s
        else if depsGet deps name = [] then
          siblingLoop n deps (name :: cs) name file.Imports s
        else
          depLoop n deps (name :: cs) name (depsGet deps name) s

/-- The loop over `file.Imports` in the no-dependents branch of
`fillPathForFile`, followed by the depth fallback once the imports are
exhausted: append the ROOT sentinel to the current (possibly non-empty)
path, then one placeholder per estimated parent directory. -/
def siblingLoop : Nat → Deps → List String → String → List String → RegState → Except GoErr RegState
  | 0, _, _, _, _, _ => .error .outOfFuel
  | Nat.succ n, deps, cs2, name, imps, s =>
    match imps with
    | [] =>
      let s1 := setPathFields s name (getPathFields s name ++ [rootDirName])
      match countParentDirsFromImports n s1 [] name with
      | .error e => .error e
      | .ok c =>
        .ok (setPathFields s1 name
          (getPathFields s1 name ++ List.replicate (c.getD 0) "dummy"))
    | imp :: rest =>
      let impFields := goSplitOn '/' imp
      match lookupFile s (impFields.getLastD "") with
      | none => .error .unexpectedFile
      | some _ =>
        match fillPathForFile n deps cs2 (impFields.getLastD "") s with
        | .error e => .error e
        | .ok s1 =>
          let s2 :=
            if getPathFields s1 (impFields.getLastD "") ≠ [] then
              setPathFields s1 name (getPathFields s1 (impFields.getLastD ""))
            else s1
          let s3 :=
            if impFields.headD "" = ".." then
              setPathFields s2 name
                (getPathFields s2 name ++ List.replicate (leadingDotDots impFields) "dummy")
            else s2
          if getPathFields s3 name ≠ [] then .ok s3
          else siblingLoop n deps cs2 name rest s3

/-- The loop over `dependents[file.Name]` of `fillPathForFile`: resolve the
dependent, skip it while its path is empty, locate the back-reference to
obtain the literal, compute the candidate, and keep it whenever it is at
least as long as the current path. -/
def depLoop : Nat → Deps → List String → String → List String → RegState → Except GoErr RegState
  | 0, _, _, _, _, _ => .error .outOfFuel
  | Nat.succ n, deps, cs2, name, depNames, s =>
    match depNames with
    | [] => .ok s
    | dn :: rest =>
      match fillPathForFile n deps cs2 dn s with
      | .error e => .error e
      | .ok s1 =>
        match lookupFile s1 dn with
        | none => .error .unexpectedFile
        | some depFile =>
          if depFile.PathFields = [] then depLoop n deps cs2 name rest s1
          else
            match lastIdxOf depFile.Dependencies name with
            | none => .error (.dependentNotFound name dn)
            | some i =>
              match depFile.Imports.get? i with
              | none => .error .indexOutOfRange
              | some importPath =>
                match newPathCandidate depFile.PathFields importPath with
                | .error e => .error e
                | .ok none => depLoop n deps cs2 name rest s1
                | .ok (some np) =>
                  let s2 :=
                    if (getPathFields s1 name).length ≤ np.length then
                      setPathFields s1 name np
                    else s1
                  depLoop n deps cs2 name rest s2

/-- Go `countParentDirsFromImports`: `ok none` models the nil pointer
returned on a callstack hit. -/
def countParentDirsFromImports : Nat → RegState → List String → String → Except GoErr (Option Nat)
  | 0, _, _, _ => .error .outOfFuel
  | Nat.succ n, s, cs, name =>
    if cs.contains name then .ok none
    else
      match lookupFile s name with
      | none => .error .unexpectedFile
      | some file =>
        match countLoop n s (name :: cs) file.Imports 0 with
        | .error e => .error e
        | .ok k => .ok (some k)

/-- The loop over `file.Imports` of `countParentDirsFromImports`: a leading
`..` contributes the count of all `..` segments of the literal; a leading
`.` whose second segment ends in `.sol` recurses into that sibling (index 1
of a one-element split is a Go panic); anything else contributes zero; the
running result is the maximum. -/
def countLoop : Nat → RegState → List String → List String → Nat → Except GoErr Nat
  | 0, _, _, _, _ => .error .outOfFuel
  | Nat.succ n, s, cs2, imps, acc =>
    match imps with
    | [] => .ok acc
    | imp :: rest =>
      let importFields := goSplitOn '/' imp
      if importFields.headD "" = ".." then
        countLoop n s cs2 rest (max (countDotDots importFields) acc)
      else if importFields.headD "" = "." then
        match importFields.get? 1 with
        | none => .error .indexOutOfRange
        | some f1 =>
          if goEndsWith f1 ".sol" then
            match lookupFile s f1 with
            | none => .error .unexpectedFile
            | some _ =>
              match countParentDirsFromImports n s cs2 f1 with
              | .error e => .error e
              | .ok c => countLoop n s cs2 rest (max (c.getD 0) acc)
          else countLoop n s cs2 rest (max 0 acc)
      else countLoop n s cs2 rest (max 0 acc)

end

/-- One pass of the outer loop of `fillPaths`: call `fillPathForFile` for
every file (fresh callstack each), counting the files whose path is
non-empty and does not begin with the ROOT sentinel, exactly as the Go
`done` counter does. -/
def fillPathsSweep (fuel : Nat) (deps : Deps) :
    List String → RegState → Nat → Except GoErr (RegState × Nat)
  | [], s, done => .ok (s, done)
  | nm :: rest, s, done =>
    match fillPathForFile fuel deps [] nm s with
    | .error e => .error e
    | .ok s1 =>
      let pf := getPathFields s1 nm
      fillPathsSweep fuel deps rest s1
        (if pf ≠ [] ∧ pf.headD "" ≠ rootDirName then done + 1 else done)

/-- The outer fixpoint loop of `fillPaths`: sweep until the `done` count
equals the previous `totalDone` count (initially zero). -/
def fillPathsLoop (innerFuel : Nat) (deps : Deps) :
    Nat → RegState → Nat → Except GoErr RegState
  | 0, _, _ => .error .outOfFuel
  | Nat.succ n, s, totalDone =>
    match fillPathsSweep innerFuel deps (s.map (·.Name)) s 0 with
    | .error e => .error e
    | .ok (s1, done) =>
      if done = totalDone then .ok s1
      else fillPathsLoop innerFuel deps n s1 done

/-- Go `fillPaths`: build the dependents index once, then run the fixpoint
loop.  `outerFuel` bounds the number of sweeps and `innerFuel` the
recursion depth inside one call; both are ample for every input used
below. -/
def fillPaths (outerFuel innerFuel : Nat) (s : RegState) : Except GoErr RegState :=
  fillPathsLoop innerFuel (buildDependents s) outerFuel s 0

/-- One line of `addBasePathToImports` (concode.go lines 268 to 294): lines
whose trimmed text lacks the prefix `import` (no trailing space required
here, unlike the extractor) pass through; so do lines whose stripped last
field begins with a dot; otherwise the first occurrence in the line of the
stripped token is replaced by `path.Join(basePath, token)`. -/
def addBasePathLine (basePath line : String) : String :=
  if ¬ goStartsWith (goTrimSpace line) "import" then line
  else
    let importPath := goTrimCut quoteCutset ((goFields (goTrimSpace line)).getLastD "")
    if goStartsWith importPath "." then line
    else goReplaceFirst line importPath (goPathJoin [basePath, importPath])

/-- Go `addBasePathToImports`: rewrite the raw content of every file line
by line. -/
def addBasePathToImports (s : RegState) (basePath : String) : RegState :=
  s.map (fun f =>
    let newRaw := goJoin "\n" ((goSplitOn '\n' f.RawContent).map (addBasePathLine basePath))
    { f with RawContent := newRaw })

/-- Result of `writeAllFiles` of fs.go: the (file path, content) pairs
actually materialized in order, the `filesWritten` counter, and the name of
the offending file when a file without a complete path stops the loop
(`none` on success).  Directory creation and the write itself are assumed
to succeed; operating-system failures are outside the model. -/
structure WriteResult where
  written : List (String × String)
  filesWritten : Nat
  errorFile : Option String
deriving DecidableEq, Repr

/-- The (file path, content) pair `writeAllFiles` materializes for one
rooted file: destination joined with the path fields after the sentinel,
then the file name. -/
def writeEntry (dstPath : String) (f : SourceCodeFile) : String × String :=
  let dirPath := goPathJoin [dstPath, goJoin "/" f.PathFields.tail]
  (goPathJoin [dirPath, f.Name], f.RawContent)

/-- Go `writeAllFiles`: iterate the files in registry order; a file whose
`PathFields` is empty or does not begin with the ROOT sentinel stops the
loop with an error naming it, after the preceding files were already
written. -/
def writeAllFiles : List SourceCodeFile → String → WriteResult
  | [], _ => ⟨[], 0, none⟩
  | f :: rest, dstPath =>
    match f.PathFields with
    | [] => ⟨[], 0, some f.Name⟩
    | p0 :: _ =>
      if p0 ≠ rootDirName then ⟨[], 0, some f.Name⟩
      else
        let r := writeAllFiles rest dstPath
        ⟨writeEntry dstPath f :: r.written, r.filesWritten + 1, r.errorFile⟩

/-- Final `PathFields` of file `n` after a run of `fillPaths`: `none` when
the run aborts with an error or the name is absent. -/
def finalPath (outerFuel innerFuel : Nat) (s : RegState) (n : String) :
    Option (List String) :=
  match fillPaths outerFuel innerFuel s with
  | .error _ => none
  | .ok s1 => (lookupFile s1 n).map (·.PathFields)

/-- A registry satisfies the reference hypothesis of the totality claim
when every dependency name of every file is a key of the registry. -/
def allRefsPresent (s : RegState) : Bool :=
  s.all (fun f => f.Dependencies.all (fun d => (lookupFile s d).isSome))

/-- Build a registry record with empty path, the way `getFiles` does:
content first, then `fillDependenciesAndImports`. -/
def mkFile (name raw : String) : SourceCodeFile :=
  fillDependenciesAndImports ⟨name, raw, [], [], []⟩

/-- One unfolding of the outer loop, stated symbolically so that concrete
runs can be rewritten sweep by sweep. -/
lemma fillPathsLoop_succ (innerFuel : Nat) (deps : Deps) (n : Nat) (s : RegState) (td : Nat) :
    fillPathsLoop innerFuel deps (n + 1) s td =
      match fillPathsSweep innerFuel deps (s.map (·.Name)) s 0 with
      | .error e => .error e
      | .ok (s1, done) => if done = td then .ok s1 else fillPathsLoop innerFuel deps n s1 done := rfl

/-- A list permuting a two-element list is one of its two arrangements. -/
lemma perm_pair_cases {α : Type} [DecidableEq α] {l : List α} {u v : α} (h : l.Perm [u, v]) :
    l = [u, v] ∨ l = [v, u] := by
  obtain ⟨q, r, rfl⟩ := List.length_eq_two.1 h.length_eq
  have hq : q ∈ [u, v] := h.subset (by simp)
  rcases (by simpa using hq : q = u ∨ q = v) with rfl | rfl
  · left
    simpa using List.perm_singleton.1 h.cons_inv
  · have hu : u ∈ [q, r] := h.symm.subset (by simp)
    rcases (by simpa using hu : u = q ∨ u = r) with rfl | rfl
    · left
      simpa using List.perm_singleton.1 h.cons_inv
    · right
      rfl

/-- A list permuting a three-element list is one of its six arrangements. -/
lemma perm_triple_cases {α : Type} [DecidableEq α] {l : List α} {x y z : α}
    (h : l.Perm [x, y, z]) :
    l = [x, y, z] ∨ l = [x, z, y] ∨ l = [y, x, z] ∨ l = [y, z, x] ∨
    l = [z, x, y] ∨ l = [z, y, x] := by
  obtain ⟨p, q, r, rfl⟩ := List.length_eq_three.1 h.length_eq
  have hp : p ∈ [x, y, z] := h.subset (by simp)
  have swapxy : ([y, x, z] : List α).Perm [x, y, z] := List.Perm.swap x y [z]
  have swapzx : ([z, x, y] : List α).Perm [x, y, z] :=
    (List.Perm.swap x z [y]).trans (List.Perm.cons x (List.Perm.swap y z []))
  rcases (by simpa using hp : p = x ∨ p = y ∨ p = z) with rfl | rfl | rfl
  · rcases perm_pair_cases h.cons_inv with h2 | h2 <;> rw [h2] <;> tauto
  · have hqr : ([q, r] : List α).Perm [x, z] := (h.trans swapxy.symm).cons_inv
    rcases perm_pair_cases hqr with h2 | h2 <;> rw [h2] <;> tauto
  · have hqr : ([q, r] : List α).Perm [x, y] := (h.trans swapzx.symm).cons_inv
    rcases perm_pair_cases hqr with h2 | h2 <;> rw [h2] <;> tauto

/-- A registry of one file that imports itself: the single dependency name
is a key of the registry, yet resolution leaves the path empty. -/
def regSelfImport : RegState := [mkFile "A" "import \"./A\";"]

/-- The two-file cycle of the cycle-safety property: A imports B and
B imports A, nothing else imports either. -/
def regCycle : RegState := [mkFile "A" "import \"./B\";", mkFile "B" "import \"./A\";"]

/-- Dependentless X whose only import is `../lib/Y`, with Y carrying no
further signal: the depth-fallback example of the specification. -/
def regDepthX : RegState := [mkFile "X" "import \"../lib/Y\";", mkFile "Y" "pragma solidity;"]

/-- T imported root-relatively by D as `lib/T` and by E as `x/y/T`: two
competing root-relative hints of different lengths. -/
def regRootRel : RegState :=
  [mkFile "D" "import \"lib/T\";", mkFile "E" "import \"x/y/T\";", mkFile "T" "pragma solidity;"]

/-- D imports its sibling by bare file name, a literal without any slash. -/
def regSlashless : RegState := [mkFile "D" "import \"T.sol\";", mkFile "T.sol" "pragma solidity;"]

/-- Registry driving T through a rooted candidate and then a longer
non-rooted one inside one dependent loop: D1 supplies `lib/T`, D2 first
acquires a non-rooted placeholder path from `../x/Z` and then supplies
`./a/T`. -/
def regOverwrite : RegState :=
  [mkFile "D1" "import \"lib/T\";",
   mkFile "D2" "import \"../x/Z\";\nimport \"./a/T\";",
   mkFile "T" "pragma solidity;",
   mkFile "Z" "pragma solidity;"]

/-- Dependents index of `regOverwrite`. -/
def depsOverwrite : Deps := buildDependents regOverwrite

/-- The end-to-end registry of the specification: Root with no imports,
A importing `./dir/B`, B with no imports. -/
def regEndToEnd : RegState :=
  [mkFile "Root" "pragma solidity;", mkFile "A" "import \"./dir/B\";", mkFile "B" "pragma solidity;"]

/-- Registry whose resolution leaves A rooted and B unrooted, driving the
materialization counterexample. -/
def regHalt : RegState := [mkFile "A" "pragma solidity;", mkFile "B" "import \"./B\";"]

/-- A rooted record, used to witness the materialization theorems. -/
def fileRootedA : SourceCodeFile :=
  ⟨"A", "pragma solidity;", [], [rootDirName], []⟩

/-- An unrooted record, used to witness the materialization theorems. -/
def fileUnrootedB : SourceCodeFile :=
  ⟨"B", "pragma solidity;", [], [], []⟩

/-- Claim C1, counterexample: the self-import registry has every referenced
name present, `fillPaths` returns without error and without changing the
state, yet the path of A is still empty, hence neither non-empty nor rooted
at the ROOT sentinel. -/
theorem totality_counterexample :
    allRefsPresent regSelfImport = true ∧
    fillPaths 5 15 regSelfImport = .ok regSelfImport ∧
    getPathFields regSelfImport "A" = [] ∧
    ([] : List String).head? ≠ some rootDirName :=
  ⟨rfl, rfl, rfl, by decide⟩

/-- Claim C1, amended: `fillPaths` does not guarantee rooted paths; the
guarantee that does hold is at materialization, where every (path, content)
pair actually written by `writeAllFiles` comes from a file whose
`PathFields` is non-empty and begins with the ROOT sentinel. -/
theorem writeAllFiles_written_rooted :
    ∀ (files : List SourceCodeFile) (dst : String) (e : String × String),
      e ∈ (writeAllFiles files dst).written →
      ∃ f, f ∈ files ∧ f.PathFields.head? = some rootDirName ∧ e = writeEntry dst f := by
  intro files
  induction files with
  | nil =>
    intro dst e he
    simp [writeAllFiles] at he
  | cons g rest ih =>
    intro dst e he
    cases hpf : g.PathFields with
    | nil =>
      rw [writeAllFiles, hpf] at he
      simp at he
    | cons p0 ps =>
      by_cases hp0 : p0 = rootDirName
      · rw [writeAllFiles, hpf] at he
        simp [hp0] at he
        rcases he with he | he
        · exact ⟨g, by simp, by simp [hpf, hp0], he⟩
        · obtain ⟨f, hf, hr, hee⟩ := ih dst e he
          exact ⟨f, by simp [hf], hr, hee⟩
      · rw [writeAllFiles, hpf] at he
        simp [hp0] at he

/-- Witness for the amended C1 theorem at a concrete rooted file. -/
theorem writeAllFiles_written_rooted_witness :
    ∃ f, f ∈ [fileRootedA] ∧ f.PathFields.head? = some rootDirName ∧
      writeEntry "dst" fileRootedA = writeEntry "dst" f :=
  writeAllFiles_written_rooted [fileRootedA] "dst" (writeEntry "dst" fileRootedA)
    (by simp [writeAllFiles, fileRootedA])

/-- State reached after the first sweep of `fillPaths 5 15 regOverwrite`
has processed D1. -/
def sOv1 : RegState :=
  [⟨"D1", "import \"lib/T\";", ["T"], ["dummy", "a"], ["lib/T"]⟩,
   ⟨"D2", "import \"../x/Z\";\nimport \"./a/T\";", ["Z", "T"], ["dummy"], ["../x/Z", "./a/T"]⟩,
   ⟨"T", "pragma solidity;", [], ["dummy", "a"], []⟩,
   ⟨"Z", "pragma solidity;", [], [], []⟩]

/-- State after the first sweep has also processed D2. -/
def sOv2 : RegState :=
  [⟨"D1", "import \"lib/T\";", ["T"], ["dummy", "a"], ["lib/T"]⟩,
   ⟨"D2", "import \"../x/Z\";\nimport \"./a/T\";", ["Z", "T"], ["dummy", "dummy"], ["../x/Z", "./a/T"]⟩,
   ⟨"T", "pragma solidity;", [], ["dummy", "a"], []⟩,
   ⟨"Z", "pragma solidity;", [], [], []⟩]

/-- State in the middle of the dependent loop of `fillPathForFile` on T:
after the D1 iteration, T is rooted at ROOT/lib. -/
def sOvMid : RegState :=
  [⟨"D1", "import \"lib/T\";", ["T"], ["dummy", "a"], ["lib/T"]⟩,
   ⟨"D2", "import \"../x/Z\";\nimport \"./a/T\";", ["Z", "T"], ["dummy", "dummy"], ["../x/Z", "./a/T"]⟩,
   ⟨"T", "pragma solidity;", [], [rootDirName, "lib"], []⟩,
   ⟨"Z", "pragma solidity;", [], [], []⟩]

/-- State at the end of that dependent loop: the D2 iteration replaced the
rooted path of T by a longer non-rooted candidate. -/
def sOvEnd : RegState :=
  [⟨"D1", "import \"lib/T\";", ["T"], ["dummy", "a"], ["lib/T"]⟩,
   ⟨"D2", "import \"../x/Z\";\nimport \"./a/T\";", ["Z", "T"], ["dummy", "x", "dummy"], ["../x/Z", "./a/T"]⟩,
   ⟨"T", "pragma solidity;", [], ["dummy", "x", "dummy", "a"], []⟩,
   ⟨"Z", "pragma solidity;", [], ["dummy", "x"], []⟩]

/-- Claim C2, counterexample: during `fillPaths 5 15 regOverwrite`, the
first sweep processes D1 and D2, then calls `fillPathForFile` on T, whose
dependent loop is `depLoop` over D1 and D2.  After the D1 iteration the
path of T begins with the ROOT sentinel, and the D2 iteration of the same
call overwrites it with a longer non-rooted candidate: a rooted path is
changed afterwards, refuting immutability. -/
theorem rooted_immutability_counterexample :
    fillPathForFile 15 depsOverwrite [] "D1" regOverwrite = .ok sOv1 ∧
    fillPathForFile 15 depsOverwrite [] "D2" sOv1 = .ok sOv2 ∧
    depLoop 14 depsOverwrite ["T"] "T" ["D1"] sOv2 = .ok sOvMid ∧
    depLoop 13 depsOverwrite ["T"] "T" ["D2"] sOvMid = .ok sOvEnd ∧
    getPathFields sOvMid "T" = [rootDirName, "lib"] ∧
    getPathFields sOvEnd "T" = ["dummy", "x", "dummy", "a"] ∧
    (getPathFields sOvEnd "T").head? ≠ some rootDirName :=
  ⟨rfl, rfl, rfl, rfl, rfl, rfl, by decide⟩

/-- Claim C2, amended: a file already rooted when `fillPathForFile` is
invoked on it is protected by the entry guard, which returns with the whole
state unchanged; the immutability claim holds only at call entry, not
across the iterations of one dependent loop. -/
theorem fillPathForFile_rooted_noop :
    ∀ (n : Nat) (deps : Deps) (cs : List String) (name : String) (s : RegState)
      (f : SourceCodeFile),
      lookupFile s name = some f → f.PathFields.head? = some rootDirName →
      fillPathForFile (n + 1) deps cs name s = .ok s := by
  intro n deps cs name s f hl hr
  simp only [fillPathForFile]
  by_cases hc : cs.contains name
  · rw [if_pos hc]
  · rw [if_neg hc, hl]
    simp [hr]

/-- Witness for the amended C2 theorem at a concrete rooted file. -/
theorem fillPathForFile_rooted_noop_witness :
    fillPathForFile 3 [] [] "A" [fileRootedA] = .ok [fileRootedA] :=
  fillPathForFile_rooted_noop 2 [] [] "A" [fileRootedA] fileRootedA (by decide) (by decide)

/-- Claim C3, counterexample: resolving `regHalt` succeeds with A rooted
and B unrooted; `writeAllFiles` then fails with an error naming B, but only
after it has already materialized A, so one file, not zero, is written. -/
theorem atomic_failure_counterexample :
    (fillPaths 5 15 regHalt).map (fun s => writeAllFiles s "dst") =
      .ok ⟨[("dst/A", "pragma solidity;")], 1, some "B"⟩ ∧
    (1 : Nat) ≠ 0 :=
  ⟨rfl, by decide⟩

/-- Claim C3, amended: when some file is unrooted, `writeAllFiles` stops
with an error naming the first unrooted file in iteration order, after
materializing exactly the rooted files that precede it; the write is a
prefix, not atomic. -/
theorem writeAllFiles_stops_at_first_unrooted :
    ∀ (files : List SourceCodeFile) (dst : String) (f : SourceCodeFile),
      f ∈ files → f.PathFields.head? ≠ some rootDirName →
      (writeAllFiles files dst).errorFile =
        ((files.dropWhile (fun g => g.PathFields.head? == some rootDirName)).head?).map (·.Name) ∧
      (writeAllFiles files dst).written =
        (files.takeWhile (fun g => g.PathFields.head? == some rootDirName)).map (writeEntry dst) ∧
      (writeAllFiles files dst).filesWritten =
        (files.takeWhile (fun g => g.PathFields.head? == some rootDirName)).length := by
  intro files
  induction files with
  | nil =>
    intro dst f hf
    simp at hf
  | cons g rest ih =>
    intro dst f hf hnr
    cases hpf : g.PathFields with
    | nil =>
      have hg : (g.PathFields.head? == some rootDirName) = false := by simp [hpf]
      rw [writeAllFiles, hpf]
      simp [List.dropWhile_cons, List.takeWhile_cons, hg, hpf]
    | cons p0 ps =>
      by_cases hp0 : p0 = rootDirName
      · have hfr : f ∈ rest := by
          rcases List.mem_cons.1 hf with rfl | hf2
          · exact absurd (by simp [hpf, hp0]) hnr
          · exact hf2
        have hg : (g.PathFields.head? == some rootDirName) = true := by simp [hpf, hp0]
        obtain ⟨h1, h2, h3⟩ := ih dst f hfr hnr
        rw [writeAllFiles, hpf]
        simp only [List.dropWhile_cons, List.takeWhile_cons, hg, if_pos hp0, if_true, if_neg,
          hp0, ite_not]
        simp [h1, h2, h3]
      · have hg : (g.PathFields.head? == some rootDirName) = false := by simp [hpf, hp0]
        rw [writeAllFiles, hpf]
        simp [List.dropWhile_cons, List.takeWhile_cons, hg, hp0]

/-- Witness for the amended C3 theorem: one rooted file followed by one
unrooted file. -/
theorem writeAllFiles_stops_witness :
    (writeAllFiles [fileRootedA, fileUnrootedB] "dst").errorFile =
      ((([fileRootedA, fileUnrootedB]).dropWhile
          (fun g => g.PathFields.head? == some rootDirName)).head?).map (·.Name) ∧
    (writeAllFiles [fileRootedA, fileUnrootedB] "dst").written =
      (([fileRootedA, fileUnrootedB]).takeWhile
          (fun g => g.PathFields.head? == some rootDirName)).map (writeEntry "dst") ∧
    (writeAllFiles [fileRootedA, fileUnrootedB] "dst").filesWritten =
      (([fileRootedA, fileUnrootedB]).takeWhile
          (fun g => g.PathFields.head? == some rootDirName)).length :=
  writeAllFiles_stops_at_first_unrooted [fileRootedA, fileUnrootedB] "dst" fileUnrootedB
    (by simp) (by decide)

/-- Claim C4, counterexample: in the two-file import cycle, `fillPaths`
terminates without error and without progress; the path of A is empty, not
the one-segment rooted path the claim requires. -/
theorem cycle_counterexample :
    fillPaths 5 15 regCycle = .ok regCycle ∧
    getPathFields regCycle "A" = [] ∧
    ([] : List String) ≠ [rootDirName] :=
  ⟨rfl, rfl, by decide⟩

/-- Claim C4, amended: on the two-file cycle (in both iteration orders of
the registry) `fillPaths` terminates without error, leaving both A and B
with empty, unrooted `PathFields` instead of `[ROOT]`. -/
theorem cycle_terminates_unrooted :
    fillPaths 5 15 regCycle = .ok regCycle ∧
    fillPaths 5 15 regCycle.reverse = .ok regCycle.reverse ∧
    getPathFields regCycle "A" = [] ∧
    getPathFields regCycle "B" = [] :=
  ⟨rfl, rfl, rfl, rfl⟩

/-- Claim C5, counterexample: D imports T through the root-relative literal
`lib/T`, yet the final path of T is ROOT/x/y, because the longer candidate
from the other dependent E replaces the ROOT/lib candidate. -/
theorem root_relative_counterexample :
    (lookupFile regRootRel "D").map (·.Imports) = some ["lib/T"] ∧
    finalPath 5 15 regRootRel "T" = some [rootDirName, "x", "y"] ∧
    ([rootDirName, "x", "y"] : List String) ≠ [rootDirName, "lib"] :=
  ⟨rfl, rfl, by decide⟩

/-- Claim C5, amended: a root-relative edge determines the candidate, not
the final path: whenever the directory portion of the literal is non-empty
and does not begin with a dot segment, the candidate `fillPathForFile`
computes from that edge is the ROOT sentinel followed by exactly those
directory segments, independent of the path of the dependent; the candidate
becomes final only if no candidate of at least equal length follows. -/
theorem newPathCandidate_root_relative :
    ∀ (depPath : List String) (importPath : String) (h0 : String) (t : List String),
      (goSplitOn '/' importPath).dropLast = h0 :: t → h0 ≠ ".." → h0 ≠ "." →
      newPathCandidate depPath importPath = .ok (some (rootDirName :: h0 :: t)) := by
  intro depPath importPath h0 t hsplit h1 h2
  simp [newPathCandidate, hsplit, h1, h2]

/-- Witness for the amended C5 theorem: the literal `lib/T` forces the
candidate ROOT/lib whatever the path of the dependent is. -/
theorem newPathCandidate_root_relative_witness :
    newPathCandidate ["unrelated", "deep", "path"] "lib/T" = .ok (some [rootDirName, "lib"]) :=
  newPathCandidate_root_relative ["unrelated", "deep", "path"] "lib/T" "lib" []
    (by decide) (by decide) (by decide)

/-- State of `regDepthX` after the first sweep. -/
def sDx1 : RegState :=
  [⟨"X", "import \"../lib/Y\";", ["Y"], ["dummy", "dummy"], ["../lib/Y"]⟩,
   ⟨"Y", "pragma solidity;", [], ["dummy", "lib"], []⟩]

/-- Final state of `regDepthX`: the second sweep makes no progress on the
done count, so the loop stops here. -/
def sDx2 : RegState :=
  [⟨"X", "import \"../lib/Y\";", ["Y"], ["dummy", "lib", "dummy"], ["../lib/Y"]⟩,
   ⟨"Y", "pragma solidity;", [], ["dummy", "lib", "lib"], []⟩]

/-- Dependents index of `regDepthX`. -/
def depsDepthX : Deps := buildDependents regDepthX

/-- First sweep of `fillPaths 5 15 regDepthX`. -/
lemma depthX_sweep1 :
    fillPathsSweep 15 depsDepthX (regDepthX.map (·.Name)) regDepthX 0 = .ok (sDx1, 2) := rfl

/-- Full run of `fillPaths` on `regDepthX`, decomposed sweep by sweep. -/
lemma depthX_run : fillPaths 5 15 regDepthX = .ok sDx2 := by
  rw [show fillPaths 5 15 regDepthX = fillPathsLoop 15 depsDepthX (4 + 1) regDepthX 0 from rfl,
      fillPathsLoop_succ, depthX_sweep1]
  rfl

/-- Claim C6, counterexample: dependentless X importing only `../lib/Y`
does not resolve to ROOT/dummy: the sibling pass appends a placeholder for
the leading `..` even though Y supplies no path, returns early, and the
depth-estimator fallback that would produce `[ROOT, dummy]` is never
reached; X ends at a non-rooted three-segment path. -/
theorem depth_fallback_counterexample :
    fillPaths 5 15 regDepthX = .ok sDx2 ∧
    getPathFields sDx2 "X" = ["dummy", "lib", "dummy"] ∧
    (["dummy", "lib", "dummy"] : List String) ≠ [rootDirName, "dummy"] :=
  ⟨depthX_run, rfl, by decide⟩

/-- Claim C6, amended: on the depth-fallback registry (iteration order X
then Y), `fillPaths` terminates without error but leaves both files
unrooted, X at `[dummy, lib, dummy]` and Y at `[dummy, lib, lib]`; neither
path begins with the ROOT sentinel and the claimed `[ROOT, dummy]` outcome
never appears. -/
theorem depth_fallback_unrooted :
    fillPaths 5 15 regDepthX = .ok sDx2 ∧
    getPathFields sDx2 "X" = ["dummy", "lib", "dummy"] ∧
    getPathFields sDx2 "Y" = ["dummy", "lib", "lib"] ∧
    (getPathFields sDx2 "X").head? ≠ some rootDirName ∧
    (getPathFields sDx2 "Y").head? ≠ some rootDirName :=
  ⟨depthX_run, rfl, rfl, by decide, by decide⟩

/-- Claim C7: on the end-to-end registry, for every iteration order of the
registry map, resolution roots A at `[ROOT]`, B at `[ROOT, dir]` and Root
at `[ROOT]`. -/
theorem end_to_end_every_order :
    ∀ (l : RegState), l.Perm regEndToEnd →
      finalPath 5 15 l "A" = some [rootDirName] ∧
      finalPath 5 15 l "B" = some [rootDirName, "dir"] ∧
      finalPath 5 15 l "Root" = some [rootDirName] := by
  intro l h
  rcases perm_triple_cases (show l.Perm
      [mkFile "Root" "pragma solidity;", mkFile "A" "import \"./dir/B\";",
       mkFile "B" "pragma solidity;"] from h) with
    h6 | h6 | h6 | h6 | h6 | h6 <;> subst h6 <;> exact ⟨rfl, rfl, rfl⟩

/-- Witness for C7 at the identity iteration order. -/
theorem end_to_end_every_order_witness :
    finalPath 5 15 regEndToEnd "A" = some [rootDirName] ∧
    finalPath 5 15 regEndToEnd "B" = some [rootDirName, "dir"] ∧
    finalPath 5 15 regEndToEnd "Root" = some [rootDirName] :=
  end_to_end_every_order regEndToEnd (List.Perm.refl _)

/-- Claim C8, counterexample: the line consisting of the bare import
keyword begins with the keyword but yields no path token; extraction does
not fail (the Go function has no error return at all) — the line is simply
not recognized, because recognition requires the keyword followed by a
space, and the file record is left unchanged with no import added. -/
theorem malformed_import_counterexample :
    goStartsWith (goTrimSpace "import") "import" = true ∧
    isImportLine "import" = false ∧
    extractImports "import" = [] ∧
    fillDependenciesAndImports ⟨"F", "import", [], [], []⟩ = ⟨"F", "import", [], [], []⟩ :=
  ⟨rfl, rfl, rfl, rfl⟩

/-- Claim C8, amended: extraction is total and never raises an error;
no import record is fabricated: every (literal, target) pair extracted from
a raw text comes from an actual line of that text that is recognized as
an import line, and equals exactly the record the extraction rule builds
from that line. -/
theorem extract_no_fabrication :
    ∀ (raw : String) (p : String × String),
      p ∈ extractImports raw →
      ∃ line, line ∈ goSplitOn '\n' raw ∧ isImportLine line = true ∧ p = mkImportRecord line := by
  intro raw p hp
  simp only [extractImports, List.mem_filterMap] at hp
  obtain ⟨line, hline, hif⟩ := hp
  by_cases hi : isImportLine line
  · rw [if_pos hi] at hif
    exact ⟨line, hline, hi, (Option.some_inj.1 hif).symm⟩
  · rw [if_neg hi] at hif
    exact absurd hif (by simp)

/-- Witness for the amended C8 theorem at a concrete one-line import. -/
theorem extract_no_fabrication_witness :
    ∃ line, line ∈ goSplitOn '\n' "import \"a\";" ∧ isImportLine line = true ∧
      (("a", "a") : String × String) = mkImportRecord line :=
  extract_no_fabrication "import \"a\";" ("a", "a") (by decide)

/-- Claim C9, counterexample: on the import line `import a from "a"` with
base path `base`, the rewriter replaces the first occurrence of the literal
substring `a`, which lies outside the quoted literal: the quoted literal is
left as `"a"` while other text of the line is altered, so the rewrite is
neither confined to the literal nor character-preserving elsewhere. -/
theorem base_path_counterexample :
    isImportLine "import a from \"a\"" = true ∧
    addBasePathToImports [⟨"F", "import a from \"a\"", [], [], []⟩] "base" =
      [⟨"F", "import base/a from \"a\"", [], [], []⟩] ∧
    ("import base/a from \"a\"" : String) ≠ "import a from \"base/a\"" :=
  ⟨rfl, rfl, by decide⟩

/-- Claim C9, amended: the rewriter changes a line only when the trimmed
line begins with `import` (space not required, unlike extraction) and the
stripped last field does not begin with a dot; the change replaces the
first occurrence in the line of that stripped token by the lexically
cleaned join of the base path with the token, which can touch text other
than the authored literal. -/
theorem addBasePath_changes_only_import_lines :
    ∀ (basePath line : String),
      addBasePathLine basePath line ≠ line →
      goStartsWith (goTrimSpace line) "import" = true ∧
      goStartsWith (goTrimCut quoteCutset ((goFields (goTrimSpace line)).getLastD "")) "." = false ∧
      addBasePathLine basePath line =
        goReplaceFirst line (goTrimCut quoteCutset ((goFields (goTrimSpace line)).getLastD ""))
          (goPathJoin [basePath, goTrimCut quoteCutset ((goFields (goTrimSpace line)).getLastD "")]) := by
  intro b line h
  by_cases h1 : goStartsWith (goTrimSpace line) "import" = true
  · by_cases h2 : goStartsWith (goTrimCut quoteCutset ((goFields (goTrimSpace line)).getLastD "")) "." = true
    · exfalso
      apply h
      unfold addBasePathLine
      rw [if_neg (not_not_intro h1)]
      exact if_pos h2
    · refine ⟨h1, by simpa using h2, ?_⟩
      unfold addBasePathLine
      rw [if_neg (not_not_intro h1)]
      exact if_neg h2
  · exfalso
    apply h
    unfold addBasePathLine
    exact if_pos h1

/-- Witness for the amended C9 theorem on a changed line. -/
theorem addBasePath_changes_witness :
    goStartsWith (goTrimSpace "import x") "import" = true ∧
    goStartsWith (goTrimCut quoteCutset ((goFields (goTrimSpace "import x")).getLastD "")) "." = false ∧
    addBasePathLine "base" "import x" =
      goReplaceFirst "import x" (goTrimCut quoteCutset ((goFields (goTrimSpace "import x")).getLastD ""))
        (goPathJoin ["base", goTrimCut quoteCutset ((goFields (goTrimSpace "import x")).getLastD "")]) :=
  addBasePath_changes_only_import_lines "base" "import x" (by decide)

/-- Claim C10: the claim is right and the code is wrong.  In `regSlashless`
every referenced name exists, D resolves to a non-empty rooted path, and
the literal `T.sol` has no slash, so the required access is total by the
claim; but splitting the literal and dropping the final segment leaves an
empty slice whose index 0 the Go code reads, a runtime panic, modelled here
as the `indexOutOfRange` error aborting the whole resolution. -/
theorem slashless_import_panics :
    allRefsPresent regSlashless = true ∧
    fillPaths 5 15 regSlashless = .error .indexOutOfRange ∧
    newPathCandidate [rootDirName] "T.sol" = .error .indexOutOfRange :=
  ⟨rfl, rfl, rfl⟩
